import Mathlib

/-!
Verification of the git-cam repository (AlexanderParker/git-cam).

This file gives a shallow embedding, in Lean 4, of the pure decision logic of
the git-cam command-line tool (src/git_cam/main.py, src/git_cam/utils.py and
src/git_cam/recheck.py).  External effects (subprocess calls to `git`, the
Anthropic API, the filesystem, stdin) are modelled as explicit parameters or
oracles; the string manipulation and control flow are translated directly from
the Python source.  Python strings are modelled as `List Char`.
-/

namespace GitCam

/-- Python string alias: we model Python `str` values as lists of characters. -/
abbrev Str := List Char

/-- ASCII whitespace as recognised by Python's `str.strip()`
(space, tab, newline, carriage return, vertical tab, form feed). -/
def pyIsSpace (c : Char) : Bool :=
  c = ' ' || c = '\t' || c = '\n' || c = '\r' || c = '\x0b' || c = '\x0c'

/-- Python `str.strip()`: drop whitespace from both ends. -/
def pyStrip (s : Str) : Str :=
  ((s.dropWhile pyIsSpace).reverse.dropWhile pyIsSpace).reverse

/-- Python `str.lower()` (restricted to ASCII letters, which is all the
tool ever compares). -/
def pyLower (s : Str) : Str :=
  s.map Char.toLower

/-- Python `str.endswith(suffix)`. -/
def pyEndsWith (s suffix : Str) : Bool :=
  suffix.isSuffixOf s

/-- `has_critical_issues` from src/git_cam/main.py (lines 188-200):
`return review.strip().endswith("STOP_COMMIT")`. -/
def has_critical_issues (review : Str) : Bool :=
  pyEndsWith (pyStrip review) "STOP_COMMIT".data

/-- `List.isSuffixOf` agrees with the `<:+` relation. -/
theorem isSuffixOf_iff_suffix {l₁ l₂ : Str} :
    l₁.isSuffixOf l₂ = true ↔ l₁ <:+ l₂ := by
  constructor
  · intro h
    exact List.isSuffixOf_iff_suffix.mp h
  · intro h
    exact List.isSuffixOf_iff_suffix.mpr h

/-- C1: `has_critical_issues(review)` is `True` exactly when the review,
stripped of leading and trailing whitespace, ends with the literal text
`STOP_COMMIT`; a review that merely mentions `STOP_COMMIT` in its interior
(such as a review ending with `OK`) is not critical. -/
theorem c1_has_critical_issues_iff_stripped_ends_with_stop_commit :
    (∀ review : Str,
      has_critical_issues review = true ↔
        ∃ p : Str, pyStrip review = p ++ "STOP_COMMIT".data) ∧
    has_critical_issues "Note: STOP_COMMIT is not needed here.  OK".data = false := by
  constructor
  · intro review
    unfold has_critical_issues pyEndsWith
    rw [isSuffixOf_iff_suffix]
    constructor
    · rintro ⟨p, hp⟩
      exact ⟨p, hp.symm⟩
    · rintro ⟨p, hp⟩
      exact ⟨p, hp.symm⟩
  · decide

/-! ## Interactive commit loop (src/git_cam/main.py, lines 614-667)

In interactive mode (no `-a` flag), `main` enters a `while True` loop: it
generates a commit message, shows it, and reads one line of input
(`choice = input().lower()`).  `"a"` or the empty string runs
`git commit -m message`; `"c"` breaks out of the loop without committing;
`"r"` (and, by fall-through, any other input) loops back and regenerates
the message.  We model the user's successive input lines as a `List Str`,
the successive generated messages as an oracle `gen : Nat → Str` (the k-th
regeneration), and the `git commit` exit status as a boolean `commitOk`. -/

/-- The three things one iteration of the accept loop can do with a line of
user input (main.py lines 633-652): commit, cancel, or fall through and
regenerate.  Note the source has no edit action. -/
inductive LoopAction
  | commit
  | cancel
  | regenerate
deriving DecidableEq

/-- How the accept prompt interprets one line of input:
`choice = input().lower()`; `"a"` or `""` commits, `"c"` cancels, `"r"` and
anything else falls through to the top of the `while True` loop. -/
def promptAction (choice : Str) : LoopAction :=
  let c := pyLower choice
  if c = "a".data ∨ c = [] then LoopAction.commit
  else if c = "c".data then LoopAction.cancel
  else LoopAction.regenerate

/-- Terminal states of the interactive accept loop. -/
inductive LoopOutcome
  | committed      -- `git commit` ran and returned 0
  | commitFailed   -- `git commit` ran and returned nonzero (then sys.exit(1))
  | cancelled      -- the user chose "c"
  | noMoreInput    -- the modelled input stream ran out
deriving DecidableEq

/-- The interactive accept loop of `main` (main.py lines 614-652).
Returns the terminal outcome, the number of times the `git commit`
subprocess was invoked, and the message passed to `git commit -m` (if it
was invoked).  `k` counts how many messages have been generated so far,
so the message shown in the current iteration is `gen k`. -/
def acceptLoop (gen : Nat → Str) (commitOk : Bool) (k : Nat) :
    List Str → LoopOutcome × Nat × Option Str
  | [] => (LoopOutcome.noMoreInput, 0, none)
  | choice :: rest =>
    match promptAction choice with
    | LoopAction.commit =>
        if commitOk then (LoopOutcome.committed, 1, some (gen k))
        else (LoopOutcome.commitFailed, 1, some (gen k))
    | LoopAction.cancel => (LoopOutcome.cancelled, 0, none)
    | LoopAction.regenerate => acceptLoop gen commitOk (k + 1) rest

/-- A lowered input line that ends the loop (commit or cancel). -/
def isDecision (c : Str) : Bool :=
  c = "a".data || c = [] || c = "c".data

/-- The loop invokes `git commit` at most once. -/
theorem acceptLoop_commit_count_le_one (gen : Nat → Str) (ok : Bool) (k : Nat)
    (choices : List Str) : (acceptLoop gen ok k choices).2.1 ≤ 1 := by
  induction choices generalizing k with
  | nil => simp [acceptLoop]
  | cons choice rest ih =>
    by_cases h1 : pyLower choice = "a".data ∨ pyLower choice = []
    · cases ok <;> simp [acceptLoop, promptAction, h1]
    · by_cases h2 : pyLower choice = "c".data
      · simp [acceptLoop, promptAction, h1, h2]
      · simpa [acceptLoop, promptAction, h1, h2] using ih (k + 1)

/-- `git commit` is invoked exactly when the first decisive lowered input
is an accept (`"a"` or `""`), not a cancel (`"c"`). -/
theorem acceptLoop_commit_iff_first_decision_accept (gen : Nat → Str) (ok : Bool)
    (k : Nat) (choices : List Str) :
    (acceptLoop gen ok k choices).2.1 = 1 ↔
      ∃ d, (choices.map pyLower).find? isDecision = some d ∧ d ≠ "c".data := by
  induction choices generalizing k with
  | nil => simp [acceptLoop]
  | cons choice rest ih =>
    by_cases h1 : pyLower choice = "a".data ∨ pyLower choice = []
    · have hdec : isDecision (pyLower choice) = true := by
        rcases h1 with h | h <;> simp [isDecision, h]
      have hne : pyLower choice ≠ "c".data := by
        rcases h1 with h | h <;> rw [h] <;> decide
      cases ok <;>
        simp [acceptLoop, promptAction, h1, List.find?_cons, hdec, hne]
    · by_cases h2 : pyLower choice = "c".data
      · simp [acceptLoop, promptAction, h1, h2, List.find?_cons, isDecision]
      · have hdec : isDecision (pyLower choice) = false := by
          push_neg at h1
          simp [isDecision, h1.1, h1.2, h2]
        have hred : acceptLoop gen ok k (choice :: rest) =
            acceptLoop gen ok (k + 1) rest := by
          simp [acceptLoop, promptAction, h1, h2]
        rw [hred]
        simp only [List.map_cons, List.find?_cons, hdec]
        exact ih (k + 1)

/-- The loop ends in `cancelled` exactly when the first decisive lowered
input is `"c"`. -/
theorem acceptLoop_cancelled_iff_first_decision_cancel (gen : Nat → Str) (ok : Bool)
    (k : Nat) (choices : List Str) :
    (acceptLoop gen ok k choices).1 = LoopOutcome.cancelled ↔
      (choices.map pyLower).find? isDecision = some "c".data := by
  induction choices generalizing k with
  | nil => simp [acceptLoop]
  | cons choice rest ih =>
    by_cases h1 : pyLower choice = "a".data ∨ pyLower choice = []
    · have hdec : isDecision (pyLower choice) = true := by
        rcases h1 with h | h <;> simp [isDecision, h]
      have hne : pyLower choice ≠ "c".data := by
        rcases h1 with h | h <;> rw [h] <;> decide
      cases ok <;>
        simp [acceptLoop, promptAction, h1, List.find?_cons, hdec, hne]
    · by_cases h2 : pyLower choice = "c".data
      · simp [acceptLoop, promptAction, h1, h2, List.find?_cons, isDecision]
      · have hdec : isDecision (pyLower choice) = false := by
          push_neg at h1
          simp [isDecision, h1.1, h1.2, h2]
        have hred : acceptLoop gen ok k (choice :: rest) =
            acceptLoop gen ok (k + 1) rest := by
          simp [acceptLoop, promptAction, h1, h2]
        rw [hred]
        simp only [List.map_cons, List.find?_cons, hdec]
        exact ih (k + 1)

/-! ## Post-review gate (src/git_cam/main.py, lines 571-607)

After `perform_code_review` returns, interactive mode branches on whether the
stripped review ends with `STOP_COMMIT`.  In the critical branch the user
must type `y`/`yes` (stripped, lowered) to proceed, anything else exits via
`sys.exit(0)`; a second input line is then read as mandatory context.  In the
normal branch (`NOTICE`/`OK`/fallback) typing `n` (stripped, lowered)
cancels, and otherwise the stripped input is kept as user context unless it
is empty or a bare `y`. -/

/-- Result of the post-review prompts: either the run is cancelled before
any message generation, or it proceeds with some user-provided context. -/
inductive GateResult
  | cancel
  | proceed (userContext : Str)
deriving DecidableEq

/-- The post-review decision logic of `main` (main.py lines 571-607).
`input1` is the line typed at the proceed prompt and `input2` the line typed
at the context prompt of the critical branch (unused otherwise). -/
def reviewGate (review input1 input2 : Str) : GateResult :=
  if has_critical_issues review then
    let u := pyStrip input1
    if pyLower u = "y".data ∨ pyLower u = "yes".data then
      GateResult.proceed (pyStrip input2)
    else
      GateResult.cancel
  else
    let u := pyStrip input1
    if pyLower u = "n".data then
      GateResult.cancel
    else
      GateResult.proceed (if u ≠ [] ∧ pyLower u ≠ "y".data then u else [])

/-- The whole interactive tail of `main` after the review returns: the gate
decides whether the message-generation loop is entered at all, and only that
loop can invoke `git commit`.  Returns the number of `git commit`
invocations. -/
def interactiveCommitCount (review input1 input2 : Str) (gen : Nat → Str)
    (commitOk : Bool) (choices : List Str) : Nat :=
  match reviewGate review input1 input2 with
  | GateResult.cancel => 0
  | GateResult.proceed _ => (acceptLoop gen commitOk 0 choices).2.1

/-- C2: in interactive mode `git commit` runs only when the user's choice at
the accept prompt is `"a"` or the empty string: the commit count is 1 exactly
when the first decisive lowered input line is an accept, `"c"` ends the loop
without committing, `"r"` regenerates and re-prompts, and the count never
exceeds 1; moreover a commit implies the post-review gate let the flow
proceed past the review. -/
theorem c2_commit_only_after_accept (gen : Nat → Str) (ok : Bool) (k : Nat)
    (choices rest : List Str) (review input1 input2 : Str) :
    (acceptLoop gen ok k choices).2.1 ≤ 1 ∧
    ((acceptLoop gen ok k choices).2.1 = 1 ↔
      ∃ d, (choices.map pyLower).find? isDecision = some d ∧ d ≠ "c".data) ∧
    ((acceptLoop gen ok k choices).1 = LoopOutcome.cancelled ↔
      (choices.map pyLower).find? isDecision = some "c".data) ∧
    ((acceptLoop gen ok k ("c".data :: rest)).2.1 = 0) ∧
    (acceptLoop gen ok k ("r".data :: rest) = acceptLoop gen ok (k + 1) rest) ∧
    (1 ≤ interactiveCommitCount review input1 input2 gen ok choices →
      reviewGate review input1 input2 ≠ GateResult.cancel ∧
      ∃ d, (choices.map pyLower).find? isDecision = some d ∧ d ≠ "c".data) := by
  refine ⟨acceptLoop_commit_count_le_one gen ok k choices,
    acceptLoop_commit_iff_first_decision_accept gen ok k choices,
    acceptLoop_cancelled_iff_first_decision_cancel gen ok k choices,
    ?_, ?_, ?_⟩
  · simp [acceptLoop, promptAction, pyLower]
  · simp [acceptLoop, promptAction, pyLower]
  · intro hcount
    unfold interactiveCommitCount at hcount
    rcases hg : reviewGate review input1 input2 with _ | ctx
    · rw [hg] at hcount
      exact absurd hcount (Nat.not_succ_le_zero 0)
    · rw [hg] at hcount
      have hcount' : 1 ≤ (acceptLoop gen ok 0 choices).2.1 := hcount
      refine ⟨by simp, ?_⟩
      have hle := acceptLoop_commit_count_le_one gen ok 0 choices
      have h1 : (acceptLoop gen ok 0 choices).2.1 = 1 := by omega
      exact (acceptLoop_commit_iff_first_decision_accept gen ok 0 choices).mp h1

/-- Closed witness for C2 at concrete inputs: with the choice sequence
`["r", "x", "a"]` the message is regenerated twice and then committed. -/
theorem c2_commit_only_after_accept_witness :
    1 ≤ interactiveCommitCount "looks fine\nOK".data [] [] (fun _ => "msg".data)
        true ["r".data, "x".data, "a".data] ∧
    reviewGate "looks fine\nOK".data [] [] ≠ GateResult.cancel := by
  have h := c2_commit_only_after_accept (fun _ => "msg".data) true 0
    ["r".data, "x".data, "a".data] [] "looks fine\nOK".data [] []
  refine ⟨?_, (h.2.2.2.2.2 ?_).1⟩ <;> decide

/-- If a nonempty `s` is a suffix of `l`, the last element of `l` is the
last element of `s`. -/
theorem getLast?_of_isSuffixOf {s l : Str} (h : s.isSuffixOf l = true)
    (hs : s ≠ []) : l.getLast? = s.getLast? := by
  rcases List.isSuffixOf_iff_suffix.mp h with ⟨t, rfl⟩
  exact List.getLast?_append_of_ne_nil t hs

/-- A review whose stripped text ends with `NOTICE` or `OK` is not critical:
its last character is `E` or `K`, never the `T` of `STOP_COMMIT`. -/
theorem not_critical_of_notice_or_ok {review : Str}
    (h : pyEndsWith (pyStrip review) "NOTICE".data = true ∨
         pyEndsWith (pyStrip review) "OK".data = true) :
    has_critical_issues review = false := by
  unfold has_critical_issues pyEndsWith
  rw [Bool.eq_false_iff]
  intro hstop
  have h2 := getLast?_of_isSuffixOf hstop (by decide)
  rcases h with h | h <;>
  · have h1 := getLast?_of_isSuffixOf h (by decide)
    rw [h1] at h2
    exact absurd h2 (by decide)

/-- C9: the defaults at the two post-review prompts are asymmetric.  When the
review is critical (stripped text ends with `STOP_COMMIT`), the empty line
cancels — and then `git commit` is never invoked — and only `y`/`yes`
(stripped, lowered) proceeds.  When the stripped review ends with `NOTICE` or
`OK`, the empty line proceeds with empty context, exactly the input `n`
(stripped, lowered) cancels, and any other input that is not a bare `y` is
kept as the user context. -/
theorem c9_post_review_prompt_defaults (review input1 input2 : Str)
    (gen : Nat → Str) (ok : Bool) (choices : List Str) :
    (has_critical_issues review = true →
      reviewGate review [] input2 = GateResult.cancel ∧
      interactiveCommitCount review [] input2 gen ok choices = 0 ∧
      (reviewGate review input1 input2 ≠ GateResult.cancel ↔
        (pyLower (pyStrip input1) = "y".data ∨
         pyLower (pyStrip input1) = "yes".data))) ∧
    ((pyEndsWith (pyStrip review) "NOTICE".data = true ∨
      pyEndsWith (pyStrip review) "OK".data = true) →
      reviewGate review [] input2 = GateResult.proceed [] ∧
      (reviewGate review input1 input2 = GateResult.cancel ↔
        pyLower (pyStrip input1) = "n".data) ∧
      (pyStrip input1 ≠ [] → pyLower (pyStrip input1) ≠ "y".data →
        pyLower (pyStrip input1) ≠ "n".data →
        reviewGate review input1 input2 = GateResult.proceed (pyStrip input1))) := by
  constructor
  · intro hcrit
    have hgate : reviewGate review [] input2 = GateResult.cancel := by
      simp only [reviewGate, hcrit]
      rw [if_pos trivial, if_neg (by decide)]
    refine ⟨hgate, ?_, ?_⟩
    · unfold interactiveCommitCount
      rw [hgate]
    · by_cases hy : pyLower (pyStrip input1) = "y".data ∨
        pyLower (pyStrip input1) = "yes".data
      · simp [reviewGate, hcrit, hy]
      · simp [reviewGate, hcrit, hy]
  · intro h
    have hnc := not_critical_of_notice_or_ok h
    refine ⟨?_, ?_, ?_⟩
    · simp only [reviewGate, hnc]
      rw [if_neg (by simp), if_neg (by decide)]
      decide
    · by_cases hn : pyLower (pyStrip input1) = "n".data
      · simp [reviewGate, hnc, hn]
      · simp [reviewGate, hnc, hn]
    · intro hne hy hn
      simp [reviewGate, hnc, hn, hne, hy]

/-- Closed witness for C9: a critical review plus an empty proceed line
cancels with zero commits, while an `OK` review plus an empty line proceeds
with empty context. -/
theorem c9_post_review_prompt_defaults_witness :
    reviewGate "Danger!\nSTOP_COMMIT".data [] [] = GateResult.cancel ∧
    interactiveCommitCount "Danger!\nSTOP_COMMIT".data [] []
      (fun _ => "msg".data) true ["a".data] = 0 ∧
    reviewGate "Looks good.\nOK".data [] [] = GateResult.proceed [] := by
  have h1 := c9_post_review_prompt_defaults "Danger!\nSTOP_COMMIT".data [] []
    (fun _ => "msg".data) true ["a".data]
  have h2 := c9_post_review_prompt_defaults "Looks good.\nOK".data [] []
    (fun _ => "msg".data) true ["a".data]
  refine ⟨(h1.1 ?_).1, (h1.1 ?_).2.1, (h2.2 ?_).1⟩
  · decide
  · decide
  · right
    decide

/-! ## Absence of an edit action in the accept loop (for claim C6) -/

/-- Any message actually passed to `git commit -m` by the accept loop is one
of the generated messages: user input never alters the message text. -/
theorem acceptLoop_committed_message_generated (gen : Nat → Str) (ok : Bool)
    (k : Nat) (choices : List Str) (m : Str)
    (h : (acceptLoop gen ok k choices).2.2 = some m) : ∃ j, m = gen j := by
  induction choices generalizing k with
  | nil => simp [acceptLoop] at h
  | cons choice rest ih =>
    by_cases h1 : pyLower choice = "a".data ∨ pyLower choice = []
    · cases ok <;> simp [acceptLoop, promptAction, h1] at h <;> exact ⟨k, h.symm⟩
    · by_cases h2 : pyLower choice = "c".data
      · simp [acceptLoop, promptAction, h1, h2] at h
      · have hred : acceptLoop gen ok k (choice :: rest) =
            acceptLoop gen ok (k + 1) rest := by
          simp [acceptLoop, promptAction, h1, h2]
        rw [hred] at h
        exact ih (k + 1) h

/-- Message generator for the C6 counterexample: the k-th generated message
is a string of `k + 1` `x` characters, so `"edited"` is never generated. -/
def c6Gen : Nat → Str := fun k => List.replicate (k + 1) 'x'

/-- C6 counterexample: the interactive flow has no edit step.  With a
generator that only ever produces strings of `x`s, no sequence of user
inputs can make the loop commit the message `"edited"`; the inputs `e` and
`edit` are simply treated as regenerate. -/
theorem c6_counterexample_no_edit_action :
    (¬ ∃ (ok : Bool) (k : Nat) (choices : List Str),
        (acceptLoop c6Gen ok k choices).2.2 = some "edited".data) ∧
    promptAction "e".data = LoopAction.regenerate ∧
    promptAction "edit".data = LoopAction.regenerate := by
  refine ⟨?_, by decide, by decide⟩
  rintro ⟨ok, k, choices, h⟩
  rcases acceptLoop_committed_message_generated c6Gen ok k choices _ h with ⟨j, hj⟩
  have hj' : "edited".data = 'x' :: List.replicate j 'x' := by
    rw [hj]
    simp [c6Gen, List.replicate_succ]
  have : ("edited".data).head? = some 'x' := by rw [hj']; rfl
  exact absurd this (by decide)

/-- C6 amended: before committing, the interactive flow lets the user accept
(`a` or the empty line), cancel (`c`), or regenerate (`r`, and indeed any
other input) the generated commit message; there is no edit facility, and
the message passed to `git commit` is always exactly one of the generated
messages. -/
theorem c6_accept_cancel_or_regenerate (gen : Nat → Str) (ok : Bool) (k : Nat)
    (choices : List Str) (m : Str) :
    promptAction "a".data = LoopAction.commit ∧
    promptAction [] = LoopAction.commit ∧
    promptAction "A".data = LoopAction.commit ∧
    promptAction "c".data = LoopAction.cancel ∧
    promptAction "r".data = LoopAction.regenerate ∧
    ((acceptLoop gen ok k choices).2.2 = some m → ∃ j, m = gen j) := by
  refine ⟨by decide, by decide, by decide, by decide, by decide, ?_⟩
  exact acceptLoop_committed_message_generated gen ok k choices m

/-- Closed witness for the amended C6: regenerating once and then accepting
commits the second generated message. -/
theorem c6_accept_cancel_or_regenerate_witness :
    (acceptLoop c6Gen true 0 ["r".data, []]).2.2 = some "xx".data ∧
    ∃ j, "xx".data = c6Gen j := by
  have h := c6_accept_cancel_or_regenerate c6Gen true 0 ["r".data, []] "xx".data
  exact ⟨by decide, h.2.2.2.2.2 (by decide)⟩

/-! ## LLM retry wrapper (src/git_cam/utils.py, lines 595-646)

`call_anthropic_with_retry` loops `for attempt in range(len(retry_delays) + 1)`
around `client.messages.create`.  On an exception it re-raises unless the
error text matches a transient-failure marker and delays remain, in which
case it sleeps `retry_delays[attempt]` and retries.  We model the API as an
oracle from the attempt index to a result, and record the final result, the
number of attempts made, and the sleeps performed. -/

/-- Python `sub in s`: substring containment (contiguous occurrence). -/
def pyContains : Str → Str → Bool
  | s, sub =>
    if sub.isPrefixOf s then true
    else
      match s with
      | [] => false
      | _ :: t => pyContains t sub

/-- One attempt of the Anthropic API call as seen by the wrapper: either a
successful response (abstracted to a number) or an exception with text `e`. -/
inductive ApiResult
  | ok (response : Nat)
  | err (e : Str)

/-- The retryable-error test of utils.py lines 625-633: `"529"`, `"502"`,
`"503"`, `"504"` as substrings of the error text, or `"overloaded"`,
`"rate_limit"`, `"timeout"` as substrings of the lowered error text. -/
def is_retryable (error_str : Str) : Bool :=
  pyContains error_str "529".data
  || pyContains (pyLower error_str) "overloaded".data
  || pyContains (pyLower error_str) "rate_limit".data
  || pyContains (pyLower error_str) "timeout".data
  || pyContains error_str "502".data
  || pyContains error_str "503".data
  || pyContains error_str "504".data

/-- `retry_delays = [5, 10, 60]` from utils.py line 612. -/
def retry_delays : List Nat := [5, 10, 60]

/-- The retry loop of `call_anthropic_with_retry` (utils.py lines 614-643).
`attempt` is the 0-based attempt index and `delays` the pending suffix
`retry_delays[attempt:]`; the code raises when the error is not retryable or
`attempt >= len(retry_delays)` (equivalently, `delays` is empty).  Returns
the final result, the number of attempts made, and the sleeps performed. -/
def retryLoop (responses : Nat → ApiResult) (attempt : Nat) :
    List Nat → Except Str Nat × Nat × List Nat
  | [] =>
    match responses attempt with
    | ApiResult.ok v => (Except.ok v, 1, [])
    | ApiResult.err e => (Except.error e, 1, [])
  | d :: rest =>
    match responses attempt with
    | ApiResult.ok v => (Except.ok v, 1, [])
    | ApiResult.err e =>
      if is_retryable e then
        let r := retryLoop responses (attempt + 1) rest
        (r.1, r.2.1 + 1, d :: r.2.2)
      else (Except.error e, 1, [])

/-- `call_anthropic_with_retry` from utils.py lines 595-646, with the API
modelled by the oracle `responses`. -/
def call_anthropic_with_retry (responses : Nat → ApiResult) :
    Except Str Nat × Nat × List Nat :=
  retryLoop responses 0 retry_delays

/-- Invariants of the retry loop: at least one and at most
`delays.length + 1` attempts, and the sleeps performed are exactly the first
`attempts - 1` pending delays. -/
theorem retryLoop_spec (responses : Nat → ApiResult) (attempt : Nat)
    (delays : List Nat) :
    1 ≤ (retryLoop responses attempt delays).2.1 ∧
    (retryLoop responses attempt delays).2.1 ≤ delays.length + 1 ∧
    (retryLoop responses attempt delays).2.2 =
      delays.take ((retryLoop responses attempt delays).2.1 - 1) := by
  induction delays generalizing attempt with
  | nil =>
    rcases h : responses attempt with v | e <;> simp [retryLoop, h]
  | cons d rest ih =>
    rcases h : responses attempt with v | e
    · simp [retryLoop, h]
    · by_cases hr : is_retryable e = true
      · have := ih (attempt + 1)
        simp only [retryLoop, h, hr, if_true]
        refine ⟨by omega, by simp; omega, ?_⟩
        have htail := this.2.2
        have h1 := this.1
        rw [htail]
        have : (retryLoop responses (attempt + 1) rest).2.1 + 1 - 1 =
            ((retryLoop responses (attempt + 1) rest).2.1 - 1) + 1 := by omega
        rw [this, List.take_succ_cons]
      · simp [retryLoop, h, hr]

/-- Every attempt that was followed by a retry failed with a retryable
error: the loop never retries after a success or a non-retryable error. -/
theorem retryLoop_retries_only_transient (responses : Nat → ApiResult)
    (attempt : Nat) (delays : List Nat) :
    ∀ i, i + 1 < (retryLoop responses attempt delays).2.1 →
      ∃ e, responses (attempt + i) = ApiResult.err e ∧ is_retryable e = true := by
  induction delays generalizing attempt with
  | nil =>
    intro i hi
    rcases h : responses attempt with v | e <;> simp [retryLoop, h] at hi
  | cons d rest ih =>
    intro i hi
    rcases h : responses attempt with v | e
    · simp [retryLoop, h] at hi
    · by_cases hr : is_retryable e = true
      · have hred : (retryLoop responses attempt (d :: rest)).2.1 =
            (retryLoop responses (attempt + 1) rest).2.1 + 1 := by
          simp [retryLoop, h, hr]
        rw [hred] at hi
        rcases i with _ | j
        · rw [Nat.add_zero]
          exact ⟨e, h, hr⟩
        · obtain ⟨e', he', hr'⟩ := ih (attempt + 1) j (by omega)
          refine ⟨e', ?_, hr'⟩
          have harith : attempt + (j + 1) = attempt + 1 + j := by omega
          rw [harith]
          exact he'
      · simp [retryLoop, h, hr] at hi

/-- A non-retryable error at any attempt the loop reaches is re-raised
immediately: when the first `i` attempts failed with retryable errors and
attempt `i` fails with a non-retryable one, the loop stops after exactly
`i + 1` attempts, having slept only the first `i` pending delays. -/
theorem retryLoop_nontransient_stops (responses : Nat → ApiResult) :
    ∀ (i : Nat) (attempt : Nat) (delays : List Nat) (e : Str),
      i ≤ delays.length →
      (∀ j, j < i → ∃ e', responses (attempt + j) = ApiResult.err e' ∧
        is_retryable e' = true) →
      responses (attempt + i) = ApiResult.err e → is_retryable e = false →
      retryLoop responses attempt delays =
        (Except.error e, i + 1, delays.take i) := by
  intro i
  induction i with
  | zero =>
    intro attempt delays e _ _ hresp hnr
    rw [Nat.add_zero] at hresp
    rcases delays with _ | ⟨d, rest⟩
    · simp [retryLoop, hresp]
    · simp [retryLoop, hresp, hnr]
  | succ k ih =>
    intro attempt delays e hi hprev hresp hnr
    rcases delays with _ | ⟨d, rest⟩
    · simp at hi
    · obtain ⟨e0, h0, hr0⟩ := hprev 0 (by omega)
      rw [Nat.add_zero] at h0
      have hi' : k ≤ rest.length := by
        simp only [List.length_cons] at hi
        omega
      have hprev' : ∀ j, j < k →
          ∃ e', responses (attempt + 1 + j) = ApiResult.err e' ∧
            is_retryable e' = true := by
        intro j hj
        obtain ⟨e', he', hr'⟩ := hprev (j + 1) (by omega)
        refine ⟨e', ?_, hr'⟩
        have harith : attempt + 1 + j = attempt + (j + 1) := by omega
        rw [harith]
        exact he'
      have hresp' : responses (attempt + 1 + k) = ApiResult.err e := by
        have harith : attempt + 1 + k = attempt + (k + 1) := by omega
        rw [harith]
        exact hresp
      have hrec := ih (attempt + 1) rest e hi' hprev' hresp' hnr
      simp [retryLoop, h0, hr0, hrec]

/-- C3: the wrapper makes at most four attempts; the sleeps performed are
always exactly the first `attempts - 1` entries of `[5, 10, 60]` (5 before
the second attempt, 10 before the third, 60 before the fourth); every retry
was preceded by a retryable error; a non-retryable error at any attempt is
re-raised immediately with no further attempt or sleep (in particular on
the first attempt, with no retry at all); and when every attempt fails with
a retryable error the wrapper makes exactly four attempts, sleeps 5, 10 and
60 seconds, and re-raises the fourth error. -/
theorem c3_retry_backoff (responses : Nat → ApiResult) :
    (call_anthropic_with_retry responses).2.1 ≤ 4 ∧
    (call_anthropic_with_retry responses).2.2 =
      retry_delays.take ((call_anthropic_with_retry responses).2.1 - 1) ∧
    (∀ i, i + 1 < (call_anthropic_with_retry responses).2.1 →
      ∃ e, responses i = ApiResult.err e ∧ is_retryable e = true) ∧
    (∀ i e, i ≤ 3 →
      (∀ j, j < i → ∃ e', responses j = ApiResult.err e' ∧
        is_retryable e' = true) →
      responses i = ApiResult.err e → is_retryable e = false →
      call_anthropic_with_retry responses =
        (Except.error e, i + 1, retry_delays.take i)) ∧
    (∀ e, responses 0 = ApiResult.err e → is_retryable e = false →
      call_anthropic_with_retry responses = (Except.error e, 1, [])) ∧
    ((∀ i, i ≤ 3 → ∃ e, responses i = ApiResult.err e ∧ is_retryable e = true) →
      ∃ e3, responses 3 = ApiResult.err e3 ∧
        call_anthropic_with_retry responses = (Except.error e3, 4, [5, 10, 60])) := by
  have hspec := retryLoop_spec responses 0 retry_delays
  refine ⟨?_, hspec.2.2, ?_, ?_, ?_, ?_⟩
  · have := hspec.2.1
    simpa [retry_delays] using this
  · intro i hi
    have := retryLoop_retries_only_transient responses 0 retry_delays i hi
    simpa using this
  · intro i e hi hprev hresp hnr
    exact retryLoop_nontransient_stops responses i 0 retry_delays e
      (by simpa [retry_delays] using hi)
      (fun j hj => by simpa using hprev j hj)
      (by simpa using hresp) hnr
  · intro e h0 hnr
    simp [call_anthropic_with_retry, retryLoop, retry_delays, h0, hnr]
  · intro hall
    obtain ⟨e0, h0, hr0⟩ := hall 0 (by omega)
    obtain ⟨e1, h1, hr1⟩ := hall 1 (by omega)
    obtain ⟨e2, h2, hr2⟩ := hall 2 (by omega)
    obtain ⟨e3, h3, hr3⟩ := hall 3 (by omega)
    refine ⟨e3, h3, ?_⟩
    simp [call_anthropic_with_retry, retryLoop, retry_delays,
      h0, hr0, h1, hr1, h2, hr2, h3, hr3]

/-- Closed witness for C3: when every attempt raises `Error 529: overloaded`
the wrapper attempts four times, sleeps 5, 10 and 60 seconds, and re-raises
the last error; and when the first attempt raises a transient error but the
second raises `Invalid API key` (non-retryable), the wrapper stops after
exactly two attempts having slept only 5 seconds. -/
theorem c3_retry_backoff_witness :
    call_anthropic_with_retry (fun _ => ApiResult.err "Error 529: Overloaded".data) =
      (Except.error "Error 529: Overloaded".data, 4, [5, 10, 60]) ∧
    call_anthropic_with_retry
      (fun i => if i = 0 then ApiResult.err "Error 529: Overloaded".data
        else ApiResult.err "Invalid API key".data) =
      (Except.error "Invalid API key".data, 2, [5]) := by
  constructor
  · have h := (c3_retry_backoff
      (fun _ => ApiResult.err "Error 529: Overloaded".data)).2.2.2.2.2
    obtain ⟨e3, h3, hres⟩ := h (fun i _ => ⟨"Error 529: Overloaded".data, rfl, by decide⟩)
    have he : e3 = "Error 529: Overloaded".data := by
      simpa using h3.symm
    rw [he] at hres
    exact hres
  · have h := (c3_retry_backoff
      (fun i => if i = 0 then ApiResult.err "Error 529: Overloaded".data
        else ApiResult.err "Invalid API key".data)).2.2.2.1
    exact h 1 "Invalid API key".data (by omega)
      (fun j hj => by
        have hj0 : j = 0 := by omega
        subst hj0
        exact ⟨"Error 529: Overloaded".data, rfl, by decide⟩)
      rfl (by decide)

/-! ## Staged-status classification (src/git_cam/utils.py, lines 462-493)

`get_filtered_diff` parses the output of `git status --porcelain` line by
line.  Lines starting with a space are unstaged-only and skipped; otherwise
`status_code = line[:2]` and `file_path = line[3:]`, and the line is put into
one of four categories according to the first letter of the status code. -/

/-- Python `s.startswith(pre)`. -/
def pyStartsWith (s pre : Str) : Bool := pre.isPrefixOf s

/-- Worker for `pySplit`, structurally recursive on an explicit fuel (which
is always supplied as the length of the string, and since each step consumes
at least one character it never runs out). -/
def pySplitGo (sep : Str) : Nat → Str → List Str
  | _, [] => [[]]
  | 0, s => [s]
  | fuel + 1, c :: rest =>
    if sep.isPrefixOf (c :: rest) then
      [] :: pySplitGo sep fuel ((c :: rest).drop sep.length)
    else
      match pySplitGo sep fuel rest with
      | [] => [[c]]
      | f :: fs => (c :: f) :: fs

/-- Python `s.split(sep)` for a nonempty separator: split on every
non-overlapping occurrence of `sep`, scanning left to right, keeping empty
fields.  (Python raises on an empty separator; that case is a placeholder
the tool never exercises.) -/
def pySplit (sep s : Str) : List Str :=
  match sep with
  | [] => [s]
  | _ :: _ => pySplitGo sep s.length s

/-- The four category lists built by the status-parsing loop of
`get_filtered_diff`. -/
structure StatusClass where
  modified_files : List Str
  new_files : List Str
  moved_files : List (Str × Str)
  deleted_files : List Str
deriving DecidableEq

/-- The status-parsing loop of `get_filtered_diff` (utils.py lines 479-493).
`Except.error ()` models the uncaught `ValueError` Python raises when an `R`
line's path field does not split into exactly two parts on `" -> "`. -/
def classifyStatusLines : List Str → Except Unit StatusClass
  | [] => Except.ok ⟨[], [], [], []⟩
  | line :: rest =>
    if pyStartsWith line " ".data then classifyStatusLines rest
    else
      let status_code := line.take 2
      let file_path := line.drop 3
      if pyStartsWith status_code "R".data then
        match pySplit " -> ".data file_path with
        | [old_path, new_path] =>
          match classifyStatusLines rest with
          | Except.ok r =>
              Except.ok { r with moved_files := (old_path, new_path) :: r.moved_files }
          | Except.error u => Except.error u
        | _ => Except.error ()
      else if pyStartsWith status_code "A".data then
        match classifyStatusLines rest with
        | Except.ok r => Except.ok { r with new_files := file_path :: r.new_files }
        | Except.error u => Except.error u
      else if pyStartsWith status_code "M".data then
        match classifyStatusLines rest with
        | Except.ok r =>
            Except.ok { r with modified_files := file_path :: r.modified_files }
        | Except.error u => Except.error u
      else if pyStartsWith status_code "D".data then
        match classifyStatusLines rest with
        | Except.ok r =>
            Except.ok { r with deleted_files := file_path :: r.deleted_files }
        | Except.error u => Except.error u
      else classifyStatusLines rest

/-- Spec-side description of the renamed pairs, following the claim's words:
exactly the staged lines (first character not a space) whose status code
starts with `R`, their path field split on `" -> "`. -/
def specRenamedPairs (lines : List Str) : List (Str × Str) :=
  lines.filterMap fun line =>
    if pyStartsWith line " ".data = false ∧
        pyStartsWith (line.take 2) "R".data = true then
      match pySplit " -> ".data (line.drop 3) with
      | [old_path, new_path] => some (old_path, new_path)
      | _ => none
    else none

/-- Spec-side description of the added files: staged lines whose status code
starts with `A`. -/
def specAddedFiles (lines : List Str) : List Str :=
  lines.filterMap fun line =>
    if pyStartsWith line " ".data = false ∧
        pyStartsWith (line.take 2) "R".data = false ∧
        pyStartsWith (line.take 2) "A".data = true
    then some (line.drop 3) else none

/-- Spec-side description of the modified files: staged lines whose status
code starts with `M`. -/
def specModifiedFiles (lines : List Str) : List Str :=
  lines.filterMap fun line =>
    if pyStartsWith line " ".data = false ∧
        pyStartsWith (line.take 2) "R".data = false ∧
        pyStartsWith (line.take 2) "A".data = false ∧
        pyStartsWith (line.take 2) "M".data = true
    then some (line.drop 3) else none

/-- Spec-side description of the deleted files: staged lines whose status
code starts with `D`. -/
def specDeletedFiles (lines : List Str) : List Str :=
  lines.filterMap fun line =>
    if pyStartsWith line " ".data = false ∧
        pyStartsWith (line.take 2) "R".data = false ∧
        pyStartsWith (line.take 2) "A".data = false ∧
        pyStartsWith (line.take 2) "M".data = false ∧
        pyStartsWith (line.take 2) "D".data = true
    then some (line.drop 3) else none

/-- C4: the status loop classifies exactly the lines whose first character is
not a space; `R` codes yield renamed pairs split on `" -> "`, `A` added, `M`
modified, `D` deleted; space-prefixed lines contribute nothing, and staged
lines with any other status code are dropped from all four categories. -/
theorem c4_porcelain_classification (lines : List Str) (r : StatusClass)
    (h : classifyStatusLines lines = Except.ok r) :
    r.moved_files = specRenamedPairs lines ∧
    r.new_files = specAddedFiles lines ∧
    r.modified_files = specModifiedFiles lines ∧
    r.deleted_files = specDeletedFiles lines := by
  induction lines generalizing r with
  | nil =>
    simp [classifyStatusLines] at h
    simp [← h, specRenamedPairs, specAddedFiles, specModifiedFiles, specDeletedFiles]
  | cons line rest ih =>
    by_cases hsp : pyStartsWith line " ".data = true
    · simp only [classifyStatusLines, hsp, if_true] at h
      have := ih r h
      simpa [specRenamedPairs, specAddedFiles, specModifiedFiles, specDeletedFiles,
        hsp] using this
    · rw [Bool.not_eq_true] at hsp
      by_cases hR : pyStartsWith (line.take 2) "R".data = true
      · rcases hrest : classifyStatusLines rest with u | r'
        · rcases hsplit : pySplit " -> ".data (line.drop 3) with _ | ⟨a, _ | ⟨b, _ | _⟩⟩ <;>
            simp [classifyStatusLines, hsp, hR, hsplit, hrest] at h
        · rcases hsplit : pySplit " -> ".data (line.drop 3) with _ | ⟨a, _ | ⟨b, _ | _⟩⟩ <;>
            simp only [classifyStatusLines, hsp, hR, hsplit, hrest] at h <;>
            simp at h
          obtain ⟨hm, hn, hmod, hd⟩ := ih r' hrest
          rw [← h]
          simp [specRenamedPairs, specAddedFiles, specModifiedFiles, specDeletedFiles,
            hsp, hR, hsplit, hm, hn, hmod, hd]
      · rw [Bool.not_eq_true] at hR
        by_cases hA : pyStartsWith (line.take 2) "A".data = true
        · rcases hrest : classifyStatusLines rest with u | r'
          · simp [classifyStatusLines, hsp, hR, hA, hrest] at h
          · simp only [classifyStatusLines, hsp, hR, hA, hrest] at h
            simp at h
            obtain ⟨hm, hn, hmod, hd⟩ := ih r' hrest
            rw [← h]
            simp [specRenamedPairs, specAddedFiles, specModifiedFiles,
              specDeletedFiles, hsp, hR, hA, hm, hn, hmod, hd]
        · rw [Bool.not_eq_true] at hA
          by_cases hM : pyStartsWith (line.take 2) "M".data = true
          · rcases hrest : classifyStatusLines rest with u | r'
            · simp [classifyStatusLines, hsp, hR, hA, hM, hrest] at h
            · simp only [classifyStatusLines, hsp, hR, hA, hM, hrest] at h
              simp at h
              obtain ⟨hm, hn, hmod, hd⟩ := ih r' hrest
              rw [← h]
              simp [specRenamedPairs, specAddedFiles, specModifiedFiles,
                specDeletedFiles, hsp, hR, hA, hM, hm, hn, hmod, hd]
          · rw [Bool.not_eq_true] at hM
            by_cases hD : pyStartsWith (line.take 2) "D".data = true
            · rcases hrest : classifyStatusLines rest with u | r'
              · simp [classifyStatusLines, hsp, hR, hA, hM, hD, hrest] at h
              · simp only [classifyStatusLines, hsp, hR, hA, hM, hD, hrest] at h
                simp at h
                obtain ⟨hm, hn, hmod, hd⟩ := ih r' hrest
                rw [← h]
                simp [specRenamedPairs, specAddedFiles, specModifiedFiles,
                  specDeletedFiles, hsp, hR, hA, hM, hD, hm, hn, hmod, hd]
            · rw [Bool.not_eq_true] at hD
              simp only [classifyStatusLines, hsp, hR, hA, hM, hD] at h
              simp at h
              have := ih r h
              simpa [specRenamedPairs, specAddedFiles, specModifiedFiles,
                specDeletedFiles, hsp, hR, hA, hM, hD] using this

/-- Closed witness for C4 on a concrete porcelain output: one staged line of
each kind, one unstaged line, and one untracked line. -/
theorem c4_porcelain_classification_witness :
    classifyStatusLines
      ["A  added.py".data, "M  changed.py".data, " M unstaged.py".data,
       "R  old.py -> new.py".data, "D  gone.py".data, "?? untracked.py".data] =
      Except.ok ⟨["changed.py".data], ["added.py".data],
        [("old.py".data, "new.py".data)], ["gone.py".data]⟩ ∧
    specAddedFiles
      ["A  added.py".data, "M  changed.py".data, " M unstaged.py".data,
       "R  old.py -> new.py".data, "D  gone.py".data, "?? untracked.py".data] =
      ["added.py".data] := by
  refine ⟨rfl, ?_⟩
  have h := c4_porcelain_classification
    ["A  added.py".data, "M  changed.py".data, " M unstaged.py".data,
     "R  old.py -> new.py".data, "D  gone.py".data, "?? untracked.py".data]
    ⟨["changed.py".data], ["added.py".data],
      [("old.py".data, "new.py".data)], ["gone.py".data]⟩ rfl
  exact h.2.1.symm

/-! ## New-file content inlining (src/git_cam/utils.py, lines 504-534)

For each file in `new_files`, `get_filtered_diff` appends `+ <file>` to
`diff_parts`; then, if `os.path.getsize(file) < 8192` and `git show :<file>`
prints something, it appends a four-line content block (header, START
marker, right-stripped content, END marker) to `new_file_parts`.  An
`OSError` from `getsize` skips the content block (`continue`). -/

/-- Python `str.rstrip()`: drop trailing whitespace. -/
def pyRStrip (s : Str) : Str := (s.reverse.dropWhile pyIsSpace).reverse

/-- The filesystem and git index as seen by the new-file loop: `getsize`
returns the on-disk size in bytes, or `none` when `os.path.getsize` raises
`OSError`; `gitShow` is the stdout of `git show :<file>`. -/
structure NewFileEnv where
  getsize : Str → Option Nat
  gitShow : Str → Str

/-- The content block a single new file contributes to `new_file_parts`
(utils.py lines 510-530): nonempty exactly when the size is known and
under 8192 bytes and `git show` printed something. -/
def newFileContentParts (env : NewFileEnv) (file : Str) : List Str :=
  match env.getsize file with
  | none => []
  | some file_size =>
    if file_size < 8192 then
      let file_content := env.gitShow file
      if file_content ≠ [] then
        ["\nContent of new file '".data ++ file ++ "':".data,
         "[START OF FILE '".data ++ file ++ "']".data,
         pyRStrip file_content,
         "[END OF FILE '".data ++ file ++ "']".data]
      else []
    else []

/-- The loop over `new_files` (utils.py lines 506-531): every file gets a
`+ <file>` line in `diff_parts`, and small non-empty files additionally get
their content block in `new_file_parts`; both lists keep the input order. -/
def processNewFiles (env : NewFileEnv) : List Str → List Str × List Str
  | [] => ([], [])
  | file :: rest =>
    let r := processNewFiles env rest
    (("+ ".data ++ file) :: r.1, newFileContentParts env file ++ r.2)

/-- C5: the diff text inlines the content of a newly added file between
START/END markers if and only if its on-disk size is strictly below 8192
bytes and `git show :<file>` prints something; every new file gets a
`+ <path>` line, a file of 8192 bytes or more contributes no content block,
and a nonempty block is exactly header, START marker, right-stripped
content, END marker. -/
theorem c5_new_file_inlining (env : NewFileEnv) (files : List Str) (f : Str)
    (n : Nat) :
    (processNewFiles env files).1 = files.map (fun file => "+ ".data ++ file) ∧
    (processNewFiles env files).2 = files.flatMap (newFileContentParts env) ∧
    (newFileContentParts env f ≠ [] ↔
      (∃ m, env.getsize f = some m ∧ m < 8192) ∧ env.gitShow f ≠ []) ∧
    (env.getsize f = some n → 8192 ≤ n → newFileContentParts env f = []) ∧
    (newFileContentParts env f ≠ [] →
      newFileContentParts env f =
        ["\nContent of new file '".data ++ f ++ "':".data,
         "[START OF FILE '".data ++ f ++ "']".data,
         pyRStrip (env.gitShow f),
         "[END OF FILE '".data ++ f ++ "']".data]) := by
  refine ⟨?_, ?_, ?_, ?_, ?_⟩
  · induction files with
    | nil => simp [processNewFiles]
    | cons file rest ih => simp [processNewFiles, ih]
  · induction files with
    | nil => simp [processNewFiles]
    | cons file rest ih => simp [processNewFiles, ih]
  · rcases hs : env.getsize f with _ | m
    · simp [newFileContentParts, hs]
    · by_cases hm : m < 8192
      · by_cases hc : env.gitShow f = []
        · simp [newFileContentParts, hs, hm, hc]
        · simp [newFileContentParts, hs, hm, hc]
      · simp [newFileContentParts, hs, hm]
  · intro hs hn
    have hn' : ¬ n < 8192 := by omega
    simp [newFileContentParts, hs, hn']
  · intro hne
    rcases hs : env.getsize f with _ | m
    · simp [newFileContentParts, hs] at hne
    · by_cases hm : m < 8192
      · by_cases hc : env.gitShow f = []
        · simp [newFileContentParts, hs, hm, hc] at hne
        · simp [newFileContentParts, hs, hm, hc]
      · simp [newFileContentParts, hs, hm] at hne

/-- Closed witness for C5: a 10-byte file with content is inlined, an
oversized file and an empty-output file are not. -/
theorem c5_new_file_inlining_witness :
    (processNewFiles
        ⟨fun f => if f = "small.py".data then some 10 else some 9000,
         fun f => if f = "small.py".data then "x = 1\n".data else "data".data⟩
        ["small.py".data, "big.bin".data]).2 =
      ["\nContent of new file '".data ++ "small.py".data ++ "':".data,
       "[START OF FILE '".data ++ "small.py".data ++ "']".data,
       "x = 1".data,
       "[END OF FILE '".data ++ "small.py".data ++ "']".data] ∧
    newFileContentParts
      ⟨fun f => if f = "small.py".data then some 10 else some 9000,
       fun f => if f = "small.py".data then "x = 1\n".data else "data".data⟩
      "big.bin".data = [] := by
  have h := c5_new_file_inlining
    ⟨fun f => if f = "small.py".data then some 10 else some 9000,
     fun f => if f = "small.py".data then "x = 1\n".data else "data".data⟩
    ["small.py".data, "big.bin".data] "big.bin".data 9000
  refine ⟨?_, h.2.2.2.1 (by decide) (by decide)⟩
  rw [h.2.1]
  decide

/-! ## Repository recheck batching (src/git_cam/recheck.py, lines 194-216)

`get_file_batch` walks the `(filepath, size)` list once: it skips entries
with `size > 16384 or size > batch_size or size == 0`; when the running
`current_size + size` would exceed `batch_size` it flushes the (nonempty)
current batch and starts a new one; every kept entry is appended to the
current batch.  The trailing batch is flushed at the end.  We model an
entry as a `(path, size)` pair (the `content` field starts as `None` and
plays no role in batching). -/

/-- One iteration of the `for filepath, size in files` loop of
`get_file_batch`.  The state is `(batches, current_batch, current_size)`. -/
def batchStep (batch_size : Nat)
    (st : List (List (Str × Nat)) × List (Str × Nat) × Nat) (f : Str × Nat) :
    List (List (Str × Nat)) × List (Str × Nat) × Nat :=
  if f.2 > 16384 ∨ f.2 > batch_size ∨ f.2 = 0 then st
  else if st.2.2 + f.2 > batch_size then
    ((if st.2.1 ≠ [] then st.1 ++ [st.2.1] else st.1), [f], f.2)
  else
    (st.1, st.2.1 ++ [f], st.2.2 + f.2)

/-- `get_file_batch` from recheck.py lines 194-216 (the Python default for
`batch_size` is 50000). -/
def get_file_batch (files : List (Str × Nat)) (batch_size : Nat) :
    List (List (Str × Nat)) :=
  let st := files.foldl (batchStep batch_size) ([], [], 0)
  if st.2.1 ≠ [] then st.1 ++ [st.2.1] else st.1

/-- Invariant of the batching loop at the default batch size: all flushed
batches and the current batch hold only files of size 1..16384, every
flushed batch sums to at most 50000, and `current_size` is the sum of the
current batch (hence at most 50000). -/
def BatchInv (st : List (List (Str × Nat)) × List (Str × Nat) × Nat) : Prop :=
  (∀ b ∈ st.1, ∀ f ∈ b, 0 < f.2 ∧ f.2 ≤ 16384) ∧
  (∀ b ∈ st.1, (b.map Prod.snd).sum ≤ 50000) ∧
  (∀ f ∈ st.2.1, 0 < f.2 ∧ f.2 ≤ 16384) ∧
  st.2.2 = (st.2.1.map Prod.snd).sum ∧
  st.2.2 ≤ 50000

/-- The batching fold preserves the invariant, and the flushed batches plus
the current batch always hold exactly the kept input files, in order. -/
theorem batchFold_spec (files : List (Str × Nat))
    (st : List (List (Str × Nat)) × List (Str × Nat) × Nat) (h : BatchInv st) :
    BatchInv (files.foldl (batchStep 50000) st) ∧
    (files.foldl (batchStep 50000) st).1.flatten ++
        (files.foldl (batchStep 50000) st).2.1 =
      (st.1.flatten ++ st.2.1) ++
        files.filter (fun f => decide (0 < f.2 ∧ f.2 ≤ 16384)) := by
  induction files generalizing st with
  | nil => simpa using h
  | cons f rest ih =>
    by_cases hskip : f.2 > 16384 ∨ f.2 > 50000 ∨ f.2 = 0
    · have hstep : batchStep 50000 st f = st := by
        simp [batchStep, hskip]
      have hkept : ¬ (0 < f.2 ∧ f.2 ≤ 16384) := by omega
      rw [List.foldl_cons, hstep]
      rcases ih st h with ⟨h1, h2⟩
      refine ⟨h1, ?_⟩
      rw [h2]
      simp [List.filter_cons, hkept]
    · have hns := hskip
      push_neg at hskip
      obtain ⟨hle, hle2, hne⟩ := hskip
      have hval : 0 < f.2 ∧ f.2 ≤ 16384 := ⟨Nat.pos_of_ne_zero hne, hle⟩
      obtain ⟨hb1, hb2, hc1, hc2, hc3⟩ := h
      by_cases hov : st.2.2 + f.2 > 50000
      · have hstep : batchStep 50000 st f =
            ((if st.2.1 ≠ [] then st.1 ++ [st.2.1] else st.1), [f], f.2) := by
          simp only [batchStep, if_neg hns, if_pos hov]
        have hinv₁ : BatchInv
            ((if st.2.1 ≠ [] then st.1 ++ [st.2.1] else st.1), [f], f.2) := by
          refine ⟨?_, ?_, ?_, by simp, ?_⟩
          · intro b hb g hg
            by_cases hcur : st.2.1 = []
            · rw [if_neg (by simp [hcur])] at hb
              exact hb1 b hb g hg
            · rw [if_pos hcur] at hb
              rcases List.mem_append.mp hb with hb | hb
              · exact hb1 b hb g hg
              · rw [List.mem_singleton] at hb
                exact hc1 g (hb ▸ hg)
          · intro b hb
            by_cases hcur : st.2.1 = []
            · rw [if_neg (by simp [hcur])] at hb
              exact hb2 b hb
            · rw [if_pos hcur] at hb
              rcases List.mem_append.mp hb with hb | hb
              · exact hb2 b hb
              · rw [List.mem_singleton] at hb
                rw [hb, ← hc2]
                exact hc3
          · intro g hg
            rw [List.mem_singleton] at hg
            exact hg ▸ hval
          · show f.2 ≤ 50000
            omega
        have hflat : ((if st.2.1 ≠ [] then st.1 ++ [st.2.1] else st.1) :
              List (List (Str × Nat))).flatten ++ [f] =
            (st.1.flatten ++ st.2.1) ++ [f] := by
          by_cases hcur : st.2.1 = []
          · rw [if_neg (by simp [hcur]), hcur]
            simp
          · rw [if_pos hcur]
            simp
        rw [List.foldl_cons, hstep]
        rcases ih _ hinv₁ with ⟨h1, h2⟩
        refine ⟨h1, ?_⟩
        rw [h2]
        dsimp only
        rw [hflat, List.filter_cons]
        simp [hval]
      · have hstep : batchStep 50000 st f =
            (st.1, st.2.1 ++ [f], st.2.2 + f.2) := by
          simp only [batchStep, if_neg hns, if_neg hov]
        have hinv₁ : BatchInv (st.1, st.2.1 ++ [f], st.2.2 + f.2) := by
          refine ⟨hb1, hb2, ?_, ?_, ?_⟩
          · intro g hg
            rcases List.mem_append.mp hg with hg | hg
            · exact hc1 g hg
            · rw [List.mem_singleton] at hg
              exact hg ▸ hval
          · simp [hc2]
          · show st.2.2 + f.2 ≤ 50000
            omega
        rw [List.foldl_cons, hstep]
        rcases ih _ hinv₁ with ⟨h1, h2⟩
        refine ⟨h1, ?_⟩
        rw [h2]
        dsimp only
        rw [List.filter_cons]
        simp [hval]

/-- C7: at the default batch size 50000, every file placed in a batch has
size 1..16384 (size-0 and oversized files are skipped entirely), every
batch's sizes sum to at most 50000, and the concatenation of the batches is
exactly the kept input files in their original order (so no file is split
or duplicated across batches). -/
theorem c7_get_file_batch_invariants (files : List (Str × Nat)) :
    (∀ b ∈ get_file_batch files 50000, ∀ f ∈ b, 0 < f.2 ∧ f.2 ≤ 16384) ∧
    (∀ b ∈ get_file_batch files 50000, (b.map Prod.snd).sum ≤ 50000) ∧
    (get_file_batch files 50000).flatten =
      files.filter (fun f => decide (0 < f.2 ∧ f.2 ≤ 16384)) := by
  have h0 : BatchInv ([], [], 0) :=
    ⟨by simp, by simp, by simp, rfl, Nat.zero_le _⟩
  obtain ⟨hinv, heq⟩ := batchFold_spec files ([], [], 0) h0
  obtain ⟨hb1, hb2, hc1, hc2, hc3⟩ := hinv
  have hunfold : get_file_batch files 50000 =
      (if (files.foldl (batchStep 50000) ([], [], 0)).2.1 ≠ [] then
        (files.foldl (batchStep 50000) ([], [], 0)).1 ++
          [(files.foldl (batchStep 50000) ([], [], 0)).2.1]
      else (files.foldl (batchStep 50000) ([], [], 0)).1) := rfl
  simp only [List.flatten_nil, List.nil_append] at heq
  by_cases hcur : (files.foldl (batchStep 50000) ([], [], 0)).2.1 = []
  · rw [hunfold, if_neg (by simp [hcur])]
    refine ⟨hb1, hb2, ?_⟩
    rw [← heq, hcur]
    simp
  · rw [hunfold, if_pos hcur]
    refine ⟨?_, ?_, ?_⟩
    · intro b hb g hg
      rcases List.mem_append.mp hb with hb | hb
      · exact hb1 b hb g hg
      · rw [List.mem_singleton] at hb
        exact hc1 g (hb ▸ hg)
    · intro b hb
      rcases List.mem_append.mp hb with hb | hb
      · exact hb2 b hb
      · rw [List.mem_singleton] at hb
        rw [hb, ← hc2]
        exact hc3
    · rw [← heq]
      simp

/-- Closed witness for C7: four 16000-byte files split into a 48000-byte
batch and a second batch, while size-0 and oversized files are dropped. -/
theorem c7_get_file_batch_invariants_witness :
    get_file_batch
      [("a.py".data, 16000), ("b.py".data, 16000), ("c.py".data, 16000),
       ("d.py".data, 16000), ("e.py".data, 0), ("f.py".data, 20000)] 50000 =
      [[("a.py".data, 16000), ("b.py".data, 16000), ("c.py".data, 16000)],
       [("d.py".data, 16000)]] ∧
    (0 < 16000 ∧ 16000 ≤ 16384) ∧
    (([("a.py".data, 16000), ("b.py".data, 16000),
        ("c.py".data, 16000)].map Prod.snd).sum ≤ 50000) := by
  have h := c7_get_file_batch_invariants
    [("a.py".data, 16000), ("b.py".data, 16000), ("c.py".data, 16000),
     ("d.py".data, 16000), ("e.py".data, 0), ("f.py".data, 20000)]
  refine ⟨by decide, ?_,
    h.2.1 [("a.py".data, 16000), ("b.py".data, 16000), ("c.py".data, 16000)]
      (by decide)⟩
  exact h.1 [("a.py".data, 16000), ("b.py".data, 16000), ("c.py".data, 16000)]
    (by decide) ("a.py".data, 16000) (by decide)

/-! ## Instruction persistence (src/git_cam/utils.py, lines 358-378, 393-403)

`append_instruction` and `set_instructions` compute the value stored under
the git config key `cam.instructions`.  We model them as pure functions from
the existing stored value (already stripped by `get_git_config_instructions`)
and the user-supplied text to the newly stored value. -/

/-- The value `append_instruction` stores (utils.py lines 358-374): existing
instructions lose one trailing period, then `". "` and the new instruction
are appended (just the new instruction when none existed), and a trailing
period is added when missing. -/
def append_instruction (existing new_instruction : Str) : Str :=
  let combined :=
    if existing ≠ [] then
      (if pyEndsWith existing ".".data then existing.dropLast else existing)
        ++ ". ".data ++ new_instruction
    else new_instruction
  if pyEndsWith combined ".".data then combined else combined ++ ".".data

/-- The value `set_instructions` stores (utils.py lines 393-399): the new
instructions, with a trailing period added when the input is nonempty and
lacks one. -/
def set_instructions (new_instructions : Str) : Str :=
  if new_instructions ≠ [] ∧ ¬ pyEndsWith new_instructions ".".data then
    new_instructions ++ ".".data
  else new_instructions

/-- Modelled from the claim's words: the persisted value is the existing
instructions with a single trailing period removed, followed by `". "`,
followed by the new instruction (or just the new instruction when no
instructions existed), with a trailing period appended when the result does
not already end with one. -/
def claimAppendValue (existing new_instruction : Str) : Str :=
  let base :=
    if existing = [] then new_instruction
    else (if pyEndsWith existing ".".data then existing.dropLast else existing)
      ++ ". ".data ++ new_instruction
  if pyEndsWith base ".".data then base else base ++ ".".data

/-- Appending `"."` makes a string end with `"."`. -/
theorem pyEndsWith_append_dot (s : Str) :
    pyEndsWith (s ++ ".".data) ".".data = true :=
  List.isSuffixOf_iff_suffix.mpr (List.suffix_append s ".".data)

/-- C8: `append_instruction` stores exactly the value the claim describes,
and after `append_instruction` (any input) or `set_instructions` (nonempty
input) the stored instructions end with a period. -/
theorem c8_instructions_end_with_period (existing new_instruction n : Str) :
    append_instruction existing new_instruction =
      claimAppendValue existing new_instruction ∧
    pyEndsWith (append_instruction existing new_instruction) ".".data = true ∧
    (n ≠ [] → pyEndsWith (set_instructions n) ".".data = true) := by
  refine ⟨?_, ?_, ?_⟩
  · unfold append_instruction claimAppendValue
    by_cases he : existing = []
    · simp [he]
    · simp [he]
  · unfold append_instruction
    by_cases hd : pyEndsWith
        (if existing ≠ [] then
          (if pyEndsWith existing ".".data then existing.dropLast else existing)
            ++ ". ".data ++ new_instruction
        else new_instruction) ".".data = true
    · rwa [if_pos hd]
    · rw [if_neg hd]
      exact pyEndsWith_append_dot _
  · intro hn
    unfold set_instructions
    by_cases hd : pyEndsWith n ".".data = true
    · rw [if_neg (by simp [hd])]
      exact hd
    · rw [if_pos ⟨hn, by simp [hd]⟩]
      exact pyEndsWith_append_dot _

/-- Closed witness for C8: appending `Use emoji` to `Be brief.` stores
`Be brief. Use emoji.`, and setting nonempty instructions yields a stored
value ending with a period. -/
theorem c8_instructions_end_with_period_witness :
    append_instruction "Be brief.".data "Use emoji".data =
      claimAppendValue "Be brief.".data "Use emoji".data ∧
    pyEndsWith (set_instructions "Keep it short".data) ".".data = true ∧
    append_instruction "Be brief.".data "Use emoji".data =
      "Be brief. Use emoji.".data := by
  have h := c8_instructions_end_with_period "Be brief.".data "Use emoji".data
    "Keep it short".data
  exact ⟨h.1, h.2.2 (by decide), by decide⟩

/-! ## Per-file history context (src/git_cam/utils.py, lines 308-337)

`get_affected_files_history` runs `git log --oneline -<limit> -- <file>` for
each of the first five staged files and collects a header line plus up to
three commit lines per file.  We model the subprocess as an oracle giving
each file's returncode and stdout. -/

/-- The `git log --oneline -<limit> -- <file>` subprocess as an oracle. -/
structure GitLogEnv where
  returncode : Str → Int
  stdout : Str → Str

/-- Python `"\n".join(parts)` (generalised to any separator). -/
def pyJoin (sep : Str) : List Str → Str
  | [] => []
  | [s] => s
  | s :: rest => s ++ sep ++ pyJoin sep rest

/-- The lines one staged file contributes to `history_parts` (utils.py
lines 316-332): when `git log` succeeds with nonempty stripped output, a
`\nRecent changes to <file>:` header followed by the first three
commit lines whose stripped text is nonempty, each prefixed with two
spaces. -/
def fileHistoryParts (env : GitLogEnv) (file_path : Str) : List Str :=
  if env.returncode file_path = 0 ∧ pyStrip (env.stdout file_path) ≠ [] then
    if pySplit "\n".data (pyStrip (env.stdout file_path)) ≠ [] ∧
        (pySplit "\n".data (pyStrip (env.stdout file_path))).headD [] ≠ [] then
      ("\nRecent changes to ".data ++ file_path ++ ":".data) ::
        ((pySplit "\n".data (pyStrip (env.stdout file_path))).take 3).filterMap
          (fun commit_line =>
            if pyStrip commit_line ≠ [] then
              some ("  ".data ++ commit_line)
            else none)
    else []
  else []

/-- `get_affected_files_history` from utils.py lines 308-337: empty when the
limit is not positive or nothing is staged, otherwise the joined parts of
the first five staged files. -/
def get_affected_files_history (env : GitLogEnv) (staged_files : List Str)
    (limit : Int) : Str :=
  if limit ≤ 0 ∨ staged_files = [] then []
  else
    let history_parts := (staged_files.take 5).flatMap (fileHistoryParts env)
    if history_parts ≠ [] then pyJoin "\n".data history_parts else []

/-- A part that begins with two spaces (a commit line) never matches the
header prefix, which begins with a newline. -/
theorem commit_part_not_header (t : Str) :
    pyStartsWith (' ' :: t) "\nRecent changes to ".data = false := rfl

/-- A header part, which begins with a newline, never matches the two-space
commit-line prefix. -/
theorem header_part_not_commit (t : Str) :
    pyStartsWith ('\n' :: t) "  ".data = false := rfl

/-- Each file contributes at most one header line. -/
theorem fileHistoryParts_header_le_one (env : GitLogEnv) (f : Str) :
    (fileHistoryParts env f).countP
      (fun p => pyStartsWith p "\nRecent changes to ".data) ≤ 1 := by
  unfold fileHistoryParts
  by_cases hc : env.returncode f = 0 ∧ pyStrip (env.stdout f) ≠ []
  · rw [if_pos hc]
    by_cases hh : pySplit "\n".data (pyStrip (env.stdout f)) ≠ [] ∧
        (pySplit "\n".data (pyStrip (env.stdout f))).headD [] ≠ []
    · rw [if_pos hh, List.countP_cons]
      have hz : (((pySplit "\n".data (pyStrip (env.stdout f))).take 3).filterMap
          (fun commit_line =>
            if pyStrip commit_line ≠ [] then
              some ("  ".data ++ commit_line)
            else none)).countP
          (fun p => pyStartsWith p "\nRecent changes to ".data) = 0 := by
        rw [List.countP_eq_zero]
        intro a ha
        rcases List.mem_filterMap.mp ha with ⟨cl, _, hcl⟩
        by_cases hstrip : pyStrip cl ≠ []
        · rw [if_pos hstrip] at hcl
          have ha2 : a = ' ' :: (' ' :: cl) := by
            rw [← Option.some_inj.mp hcl]
            rfl
          rw [ha2]
          show ¬ (pyStartsWith (' ' :: (' ' :: cl))
            "\nRecent changes to ".data = true)
          rw [commit_part_not_header (' ' :: cl)]
          exact Bool.false_ne_true
        · rw [if_neg hstrip] at hcl
          exact absurd hcl (by simp)
      rw [hz]
      split <;> omega
    · rw [if_neg hh]
      simp
  · rw [if_neg hc]
    simp

/-- Each file contributes at most three commit lines. -/
theorem fileHistoryParts_commits_le_three (env : GitLogEnv) (f : Str) :
    (fileHistoryParts env f).countP
      (fun p => pyStartsWith p "  ".data) ≤ 3 := by
  unfold fileHistoryParts
  by_cases hc : env.returncode f = 0 ∧ pyStrip (env.stdout f) ≠ []
  · rw [if_pos hc]
    by_cases hh : pySplit "\n".data (pyStrip (env.stdout f)) ≠ [] ∧
        (pySplit "\n".data (pyStrip (env.stdout f))).headD [] ≠ []
    · have hhd : ¬ ((fun p => pyStartsWith p "  ".data)
          ("\nRecent changes to ".data ++ f ++ ":".data) = true) :=
        fun hcontra => Bool.false_ne_true
          ((header_part_not_commit
            ("Recent changes to ".data ++ f ++ ":".data)).symm.trans hcontra)
      have hlen : (((pySplit "\n".data (pyStrip (env.stdout f))).take 3).filterMap
          (fun commit_line =>
            if pyStrip commit_line ≠ [] then
              some ("  ".data ++ commit_line)
            else none)).countP (fun p => pyStartsWith p "  ".data) ≤ 3 :=
        calc (((pySplit "\n".data (pyStrip (env.stdout f))).take 3).filterMap
              (fun commit_line =>
                if pyStrip commit_line ≠ [] then
                  some ("  ".data ++ commit_line)
                else none)).countP (fun p => pyStartsWith p "  ".data)
            ≤ (((pySplit "\n".data (pyStrip (env.stdout f))).take 3).filterMap
              (fun commit_line =>
                if pyStrip commit_line ≠ [] then
                  some ("  ".data ++ commit_line)
                else none)).length := List.countP_le_length _
          _ ≤ ((pySplit "\n".data (pyStrip (env.stdout f))).take 3).length :=
              List.length_filterMap_le _ _
          _ ≤ 3 := List.length_take_le 3 _
      rw [if_pos hh, List.countP_cons]
      split
      · rename_i hcontra
        exact absurd hcontra hhd
      · omega
    · rw [if_neg hh]
      simp
  · rw [if_neg hc]
    simp

/-- Bounding `countP` over a `flatMap` by a uniform per-element bound. -/
theorem countP_flatMap_le (p : Str → Bool) (g : Str → List Str) (l : List Str)
    (k : Nat) (h : ∀ x, (g x).countP p ≤ k) :
    (l.flatMap g).countP p ≤ k * l.length := by
  induction l with
  | nil => simp
  | cons a rest ih =>
    rw [List.flatMap_cons, List.countP_append]
    have := h a
    have := ih
    simp only [List.length_cons, Nat.mul_succ]
    omega

/-- C10: `get_affected_files_history` returns the empty string when the
limit is not positive or nothing is staged; it examines only the first five
staged files; and its parts list holds at most 5 header lines (one per
mentioned file) and at most 15 commit lines. -/
theorem c10_affected_files_history_bounds (env : GitLogEnv)
    (staged_files : List Str) (limit : Int) :
    (limit ≤ 0 → get_affected_files_history env staged_files limit = []) ∧
    (staged_files = [] → get_affected_files_history env staged_files limit = []) ∧
    (get_affected_files_history env staged_files limit =
      get_affected_files_history env (staged_files.take 5) limit) ∧
    (((staged_files.take 5).flatMap (fileHistoryParts env)).countP
      (fun p => pyStartsWith p "\nRecent changes to ".data) ≤ 5) ∧
    (((staged_files.take 5).flatMap (fileHistoryParts env)).countP
      (fun p => pyStartsWith p "  ".data) ≤ 15) := by
  refine ⟨?_, ?_, ?_, ?_, ?_⟩
  · intro hl
    simp [get_affected_files_history, hl]
  · intro hs
    simp [get_affected_files_history, hs]
  · by_cases hl : limit ≤ 0
    · simp [get_affected_files_history, hl]
    · by_cases hs : staged_files = []
      · simp [get_affected_files_history, hl, hs]
      · have hs5 : staged_files.take 5 ≠ [] := by
          simp [List.take_eq_nil_iff, hs]
        simp [get_affected_files_history, hl, hs, hs5, List.take_take]
  · have h := countP_flatMap_le
      (fun p => pyStartsWith p "\nRecent changes to ".data)
      (fileHistoryParts env) (staged_files.take 5) 1
      (fileHistoryParts_header_le_one env)
    have hlen := List.length_take_le 5 staged_files
    calc ((staged_files.take 5).flatMap (fileHistoryParts env)).countP
          (fun p => pyStartsWith p "\nRecent changes to ".data)
        ≤ 1 * (staged_files.take 5).length := h
      _ ≤ 5 := by omega
  · have h := countP_flatMap_le
      (fun p => pyStartsWith p "  ".data)
      (fileHistoryParts env) (staged_files.take 5) 3
      (fileHistoryParts_commits_le_three env)
    have hlen := List.length_take_le 5 staged_files
    calc ((staged_files.take 5).flatMap (fileHistoryParts env)).countP
          (fun p => pyStartsWith p "  ".data)
        ≤ 3 * (staged_files.take 5).length := h
      _ ≤ 15 := by omega

/-- Closed witness for C10: with a zero limit or an empty staged list the
result is the empty string. -/
theorem c10_affected_files_history_bounds_witness :
    get_affected_files_history
      ⟨fun _ => 0, fun _ => "abc123 initial commit".data⟩
      ["a.py".data] 0 = [] ∧
    get_affected_files_history
      ⟨fun _ => 0, fun _ => "abc123 initial commit".data⟩ [] 5 = [] := by
  have h1 := c10_affected_files_history_bounds
    ⟨fun _ => 0, fun _ => "abc123 initial commit".data⟩ ["a.py".data] 0
  have h2 := c10_affected_files_history_bounds
    ⟨fun _ => 0, fun _ => "abc123 initial commit".data⟩ [] 5
  exact ⟨h1.1 (by omega), h2.2.1 rfl⟩

end GitCam
